import Mathlib

/-!
Shallow embedding of `dbms/src/Common/IFactoryWithAliases.h` (ClickHouse):
a generic alias-aware name-resolution layer in front of a name-keyed
registry of creators.  The C++ class owns two `std::unordered_map<String,
String>` alias maps and consults two creator maps supplied by the
surrounding factory through virtual accessors.  Here the creator maps are
fields of a `Provider` structure, the mutable alias maps are a
`FactoryState` threaded explicitly, `throw` sites become error values
paired with the state at the moment of the throw, and `Poco::toLower`
becomes ASCII lowercasing.
-/

set_option autoImplicit false

namespace DB

/-- ASCII per-character lowering, as `Poco::toLower` performs on each char
of the string (in the default locale it maps exactly the 26 letters A..Z
to a..z). -/
def Poco.toLowerChar (c : Char) : Char :=
  if 65 ≤ c.toNat ∧ c.toNat ≤ 90 then Char.ofNat (c.toNat + 32) else c

/-- Embedding of `Poco::toLower` on strings: lower every character. -/
def Poco.toLower (s : String) : String :=
  String.mk (s.data.map Poco.toLowerChar)

/-- Unordered maps are embedded as association lists with unique keys (the
`emplace` below never introduces a duplicate key).  `UMap.count` is
`std::unordered_map::count` as a Bool (the map holds at most one entry per
key). -/
def UMap.count {α : Type} (m : List (String × α)) (k : String) : Bool :=
  m.any (fun kv => kv.1 == k)

/-- `std::unordered_map::find` returning the mapped value when present. -/
def UMap.find? {α : Type} (m : List (String × α)) (k : String) : Option α :=
  (m.find? (fun kv => kv.1 == k)).map (fun kv => kv.2)

/-- `std::unordered_map::at` for string-valued maps; the source only calls
it under a `count` guard, so the default is never reached. -/
def UMap.get (m : List (String × String)) (k : String) : String :=
  (UMap.find? m k).getD ""

/-- `std::unordered_map::emplace`: insert only if the key is absent;
the Bool is the `.second` of the returned pair (whether insertion
happened). -/
def UMap.emplace {α : Type} (m : List (String × α)) (k : String) (v : α) :
    Bool × List (String × α) :=
  if UMap.count m k then (false, m) else (true, m ++ [(k, v)])

/-- The capability the surrounding factory provides through the pure
virtual accessors `getCreatorMap`, `getCaseInsensitiveCreatorMap` and
`getFactoryName`. -/
structure Provider (Creator : Type) where
  creator_map : List (String × Creator)
  case_insensitive_creator_map : List (String × Creator)
  factory_name : String

/-- The mutable state of `IFactoryWithAliases`: the two private alias
maps `aliases` and `case_insensitive_aliases`. -/
structure FactoryState where
  aliases : List (String × String)
  case_insensitive_aliases : List (String × String)
  deriving DecidableEq, Repr

/-- Enum `CaseSensitiveness` of the source. -/
inductive CaseSensitiveness where
  | CaseSensitive
  | CaseInsensitive
  deriving DecidableEq, Repr

/-- The four distinct `throw` sites of `registerAlias` (all raised as
`LOGICAL_ERROR` in the source, distinguished by message). -/
inductive RegErr where
  | UnknownRealName
  | AliasShadowsCanonical
  | DuplicateCaseInsensitiveAlias
  | DuplicateAlias
  deriving DecidableEq, Repr

/-- The `throw` site of `aliasTo`. -/
inductive QueryErr where
  | NotAnAlias
  deriving DecidableEq, Repr

/-- Lines 55-62 of the source: resolve `real_name` to the canonical
`real_dict_name`, or fail. -/
def resolveRealName {C : Type} (p : Provider C) (real_name : String) : Option String :=
  if UMap.count p.creator_map real_name then some real_name
  else
    let real_name_lowercase := Poco.toLower real_name
    if UMap.count p.case_insensitive_creator_map real_name_lowercase then
      some real_name_lowercase
    else none

/-- Lines 75-76 of the source, the final unconditional `emplace` into
`aliases`; it runs whenever the earlier checks did not throw, on whatever
state those earlier steps produced. -/
def registerAliasStep4 (s1 : FactoryState) (alias_name real_dict_name : String) :
    Option RegErr × FactoryState :=
  let r2 := UMap.emplace s1.aliases alias_name real_dict_name
  if r2.1 then (none, { s1 with aliases := r2.2 })
  else (some RegErr.DuplicateAlias, s1)

/-- `registerAlias` (lines 49-77).  A C++ `throw` leaves the object in
whatever state it had reached, so the result pairs an optional error with
the state at exit: in particular a successful `emplace` into
`case_insensitive_aliases` stays committed when the later `emplace` into
`aliases` fails. -/
def registerAlias {C : Type} (p : Provider C) (s : FactoryState)
    (alias_name real_name : String) (case_sensitiveness : CaseSensitiveness) :
    Option RegErr × FactoryState :=
  match resolveRealName p real_name with
  | none => (some RegErr.UnknownRealName, s)
  | some real_dict_name =>
    let alias_name_lowercase := Poco.toLower alias_name
    if UMap.count p.creator_map alias_name
        || UMap.count p.case_insensitive_creator_map alias_name_lowercase then
      (some RegErr.AliasShadowsCanonical, s)
    else
      match case_sensitiveness with
      | CaseSensitiveness.CaseSensitive =>
        registerAliasStep4 s alias_name real_dict_name
      | CaseSensitiveness.CaseInsensitive =>
        let r := UMap.emplace s.case_insensitive_aliases alias_name_lowercase real_dict_name
        if r.1 then
          registerAliasStep4 { s with case_insensitive_aliases := r.2 }
            alias_name real_dict_name
        else (some RegErr.DuplicateCaseInsensitiveAlias, s)

/-- `getAliasToOrName` (lines 28-36). -/
def getAliasToOrName (s : FactoryState) (name : String) : String :=
  if UMap.count s.aliases name then UMap.get s.aliases name
  else
    let name_lowercase := Poco.toLower name
    if UMap.count s.case_insensitive_aliases name_lowercase then
      UMap.get s.case_insensitive_aliases name_lowercase
    else name

/-- `getAllRegisteredNames` (lines 79-86): keys of the creator map, then
keys of the case-sensitive alias map. -/
def getAllRegisteredNames {C : Type} (p : Provider C) (s : FactoryState) : List String :=
  p.creator_map.map (fun kv => kv.1) ++ s.aliases.map (fun kv => kv.1)

/-- `isCaseInsensitive` (lines 88-92). -/
def isCaseInsensitive {C : Type} (p : Provider C) (s : FactoryState) (name : String) : Bool :=
  let name_lowercase := Poco.toLower name
  UMap.count p.case_insensitive_creator_map name_lowercase
    || UMap.count s.case_insensitive_aliases name_lowercase

/-- `aliasTo` (lines 94-102): exact lookup in `aliases`, then lowercased
lookup in `case_insensitive_aliases`, else throw. -/
def aliasTo (s : FactoryState) (name : String) : Except QueryErr String :=
  match UMap.find? s.aliases name with
  | some v => Except.ok v
  | none =>
    match UMap.find? s.case_insensitive_aliases (Poco.toLower name) with
    | some v => Except.ok v
    | none => Except.error QueryErr.NotAnAlias

/-- `isAlias` (lines 104-107): both maps are probed with the exact,
non-lowercased `name`. -/
def isAlias (s : FactoryState) (name : String) : Bool :=
  UMap.count s.aliases name || UMap.count s.case_insensitive_aliases name

/-- State of a registry including the hidden cache of `getHints`
(line 111): the C++ `static const auto registered_names` evaluates
`getAllRegisteredNames()` at the first call and never again, which in
explicit state-passing is an `Option (List String)` cache field. -/
structure RegistryState where
  fs : FactoryState
  hints_cache : Option (List String)
  deriving DecidableEq, Repr

/-- `getHints` (lines 109-113).  The `NamePrompter` ranking engine lives
outside this translation unit, so it enters as the function parameter
`prompterGetHints`; the caching of the candidate list is what this
definition embeds. -/
def getHints {C : Type} (prompterGetHints : String → List String → List String)
    (p : Provider C) (rs : RegistryState) (name : String) :
    List String × RegistryState :=
  match rs.hints_cache with
  | some registered_names => (prompterGetHints name registered_names, rs)
  | none =>
    let registered_names := getAllRegisteredNames p rs.fs
    (prompterGetHints name registered_names,
     { rs with hints_cache := some registered_names })

/-- `registerAlias` lifted to the registry state carrying the hints
cache; the C++ method does not touch the static cache. -/
def registerAliasR {C : Type} (p : Provider C) (rs : RegistryState)
    (alias_name real_name : String) (m : CaseSensitiveness) :
    Option RegErr × RegistryState :=
  let r := registerAlias p rs.fs alias_name real_name m
  (r.1, { rs with fs := r.2 })

/-- Decidable equality for `Except` results, so that concrete runs of
`aliasTo` can be checked by `decide`. -/
instance {ε α : Type} [DecidableEq ε] [DecidableEq α] : DecidableEq (Except ε α) := fun a b =>
  match a, b with
  | Except.ok x, Except.ok y => decidable_of_iff (x = y) (by simp)
  | Except.error x, Except.error y => decidable_of_iff (x = y) (by simp)
  | Except.ok _, Except.error _ => isFalse (fun h => Except.noConfusion h)
  | Except.error _, Except.ok _ => isFalse (fun h => Except.noConfusion h)

/-- Concrete provider of the spec's end-to-end scenario: canonical map
holds exactly the name "Sum", case-insensitive canonical map empty. -/
def sumProvider : Provider Unit :=
  { creator_map := [("Sum", Unit.unit)], case_insensitive_creator_map := [],
    factory_name := "AggregateFunctionFactory" }

/-- A freshly constructed alias registry: both alias maps empty. -/
def emptyFS : FactoryState := { aliases := [], case_insensitive_aliases := [] }

/-- State reached after `registerAlias("SUM", "Sum", CaseInsensitive)` on
the fresh registry over `sumProvider`. -/
def sumState : FactoryState :=
  (registerAlias sumProvider emptyFS "SUM" "Sum" CaseSensitiveness.CaseInsensitive).2

/-- State whose case-sensitive alias map already holds the key "SUM" while
the case-insensitive alias map is empty (reachable by a prior
case-sensitive registration of "SUM"). -/
def dupState : FactoryState :=
  { aliases := [("SUM", "Sum")], case_insensitive_aliases := [] }

/-- A concrete stand-in for the external hint engine that returns the full
candidate list, used to instantiate the `getHints` theorems. -/
def idPrompter : String → List String → List String := fun _ l => l

/-- The property claimed invariant for canonical targets stored in the
alias maps: the target is a key of the provider's case-sensitive canonical
map, or the lowercased form of a real name whose lowercased form is a key
of the provider's case-insensitive canonical map. -/
def validTarget {C : Type} (p : Provider C) (v : String) : Prop :=
  UMap.count p.creator_map v = true ∨
    ∃ r, v = Poco.toLower r ∧
      UMap.count p.case_insensitive_creator_map (Poco.toLower r) = true

/-- Every value stored in either alias map is a valid canonical target. -/
def AliasInvariant {C : Type} (p : Provider C) (s : FactoryState) : Prop :=
  (∀ kv ∈ s.aliases, validTarget p kv.2) ∧
  (∀ kv ∈ s.case_insensitive_aliases, validTarget p kv.2)

theorem UMap.count_eq_isSome {α : Type} (m : List (String × α)) (k : String) :
    UMap.count m k = (UMap.find? m k).isSome := by
  rw [Bool.eq_iff_iff]
  simp [UMap.count, UMap.find?, List.any_eq_true, List.find?_isSome]

theorem registerAliasStep4_success (s1 : FactoryState) (a t : String)
    (s2 : FactoryState) (e : Option RegErr)
    (h : registerAliasStep4 s1 a t = (e, s2)) :
    (e = none → s2.aliases = s1.aliases ++ [(a, t)]) ∧
    s2.case_insensitive_aliases = s1.case_insensitive_aliases := by
  unfold registerAliasStep4 UMap.emplace at h
  by_cases hc : UMap.count s1.aliases a = true
  · simp [hc] at h
    obtain ⟨he, hs⟩ := h
    subst he; subst hs
    exact ⟨fun hn => absurd hn (by simp), rfl⟩
  · simp [hc] at h
    obtain ⟨he, hs⟩ := h
    subst he; subst hs
    exact ⟨fun _ => rfl, rfl⟩

theorem registerAlias_success_aliases {C : Type} (p : Provider C) (s : FactoryState)
    (a r : String) (m : CaseSensitiveness) (s2 : FactoryState)
    (h : registerAlias p s a r m = (none, s2)) :
    ∃ t, s2.aliases = s.aliases ++ [(a, t)] := by
  unfold registerAlias at h
  cases hres : resolveRealName p r with
  | none => rw [hres] at h; simp at h
  | some t =>
    rw [hres] at h
    simp only at h
    by_cases hsh : (UMap.count p.creator_map a
        || UMap.count p.case_insensitive_creator_map (Poco.toLower a)) = true
    · rw [if_pos hsh] at h; simp at h
    · rw [if_neg (by simpa using hsh)] at h
      cases m with
      | CaseSensitive =>
        simp only at h
        exact ⟨t, (registerAliasStep4_success s a t s2 none h).1 rfl⟩
      | CaseInsensitive =>
        simp only at h
        by_cases hci : (UMap.emplace s.case_insensitive_aliases (Poco.toLower a) t).1 = true
        · rw [if_pos hci] at h
          exact ⟨t, (registerAliasStep4_success _ a t s2 none h).1 rfl⟩
        · rw [if_neg (by simpa using hci)] at h
          simp at h

theorem validTarget_of_resolve {C : Type} (p : Provider C) (r t : String)
    (h : resolveRealName p r = some t) : validTarget p t := by
  unfold resolveRealName at h
  by_cases h1 : UMap.count p.creator_map r = true
  · rw [if_pos h1] at h
    obtain rfl : r = t := by simpa using h
    exact Or.inl h1
  · rw [if_neg (by simpa using h1)] at h
    by_cases h2 : UMap.count p.case_insensitive_creator_map (Poco.toLower r) = true
    · rw [if_pos h2] at h
      obtain rfl : Poco.toLower r = t := by simpa using h
      exact Or.inr ⟨r, rfl, h2⟩
    · rw [if_neg (by simpa using h2)] at h
      simp at h

theorem registerAliasStep4_inv {C : Type} (p : Provider C) (s1 : FactoryState)
    (a t : String) (h : AliasInvariant p s1) (hvt : validTarget p t) :
    AliasInvariant p (registerAliasStep4 s1 a t).2 := by
  by_cases hc : UMap.count s1.aliases a = true
  · have he : registerAliasStep4 s1 a t = (some RegErr.DuplicateAlias, s1) := by
      simp [registerAliasStep4, UMap.emplace, hc]
    rw [he]
    exact h
  · have hc2 : UMap.count s1.aliases a = false := by simpa using hc
    have he : registerAliasStep4 s1 a t
        = (none, { s1 with aliases := s1.aliases ++ [(a, t)] }) := by
      simp [registerAliasStep4, UMap.emplace, hc2]
    rw [he]
    refine ⟨?_, h.2⟩
    intro kv hkv
    rcases List.mem_append.1 hkv with h1 | h2
    · exact h.1 kv h1
    · have hkv2 : kv = (a, t) := by simpa using h2
      subst hkv2
      exact hvt

/-- Claim C1: `getAliasToOrName(x)` returns the target stored for `x` in
the case-sensitive alias map when `x` is a key there; otherwise the target
stored for `lowercase(x)` in the case-insensitive alias map when that is a
key there; otherwise `x` unchanged.  Totality (the operation never fails)
is the return type of the embedded definition. -/
theorem getAliasToOrName_resolves (s : FactoryState) (x : String) :
    (∀ v, UMap.find? s.aliases x = some v → getAliasToOrName s x = v) ∧
    (UMap.find? s.aliases x = none →
      ∀ v, UMap.find? s.case_insensitive_aliases (Poco.toLower x) = some v →
        getAliasToOrName s x = v) ∧
    (UMap.find? s.aliases x = none →
      UMap.find? s.case_insensitive_aliases (Poco.toLower x) = none →
        getAliasToOrName s x = x) := by
  refine ⟨?_, ?_, ?_⟩
  · intro v hv
    have hc : UMap.count s.aliases x = true := by
      rw [UMap.count_eq_isSome, hv]; rfl
    simp [getAliasToOrName, hc, UMap.get, hv]
  · intro h0 v hv
    have hc : UMap.count s.aliases x = false := by
      rw [UMap.count_eq_isSome, h0]; rfl
    have hc2 : UMap.count s.case_insensitive_aliases (Poco.toLower x) = true := by
      rw [UMap.count_eq_isSome, hv]; rfl
    simp [getAliasToOrName, hc, hc2, UMap.get, hv]
  · intro h0 h1
    have hc : UMap.count s.aliases x = false := by
      rw [UMap.count_eq_isSome, h0]; rfl
    have hc2 : UMap.count s.case_insensitive_aliases (Poco.toLower x) = false := by
      rw [UMap.count_eq_isSome, h1]; rfl
    simp [getAliasToOrName, hc, hc2]

/-- Witness for C1 on the scenario state: an exact alias hit, a
case-insensitive hit, and an unregistered name returned unchanged. -/
theorem getAliasToOrName_resolves_witness :
    getAliasToOrName sumState "SUM" = "Sum" ∧
    getAliasToOrName sumState "sUm" = "Sum" ∧
    getAliasToOrName sumState "zzz" = "zzz" :=
  ⟨(getAliasToOrName_resolves sumState "SUM").1 "Sum" (by decide),
   (getAliasToOrName_resolves sumState "sUm").2.1 (by decide) "Sum" (by decide),
   (getAliasToOrName_resolves sumState "zzz").2.2 (by decide) (by decide)⟩

/-- Claim C2: when `real_name` is neither a key of the provider's
case-sensitive canonical map nor, lowercased, a key of its
case-insensitive canonical map, `registerAlias` fails with UnknownRealName
for either mode and returns the alias maps exactly as they were. -/
theorem registerAlias_unknown_real_name {C : Type} (p : Provider C) (s : FactoryState)
    (a r : String) (m : CaseSensitiveness)
    (h1 : UMap.count p.creator_map r = false)
    (h2 : UMap.count p.case_insensitive_creator_map (Poco.toLower r) = false) :
    registerAlias p s a r m = (some RegErr.UnknownRealName, s) := by
  have hres : resolveRealName p r = none := by
    simp [resolveRealName, h1, h2]
  simp [registerAlias, hres]

/-- Witness for C2: registering an alias for the unknown real name "Nope"
over the provider that only knows "Sum". -/
theorem registerAlias_unknown_real_name_witness :
    UMap.count sumProvider.creator_map "Nope" = false ∧
    UMap.count sumProvider.case_insensitive_creator_map (Poco.toLower "Nope") = false ∧
    registerAlias sumProvider sumState "X" "Nope" CaseSensitiveness.CaseSensitive
      = (some RegErr.UnknownRealName, sumState) :=
  ⟨by decide, by decide,
   registerAlias_unknown_real_name sumProvider sumState "X" "Nope"
     CaseSensitiveness.CaseSensitive (by decide) (by decide)⟩

/-- Claim C3: when `alias_name` is an exact key of the provider's
case-sensitive canonical map, or its lowercased form is a key of the
case-insensitive canonical map, `registerAlias` with a resolvable
`real_name` fails with AliasShadowsCanonical for either mode and leaves
the alias maps unchanged. -/
theorem registerAlias_alias_shadows_canonical {C : Type} (p : Provider C)
    (s : FactoryState) (a r : String) (m : CaseSensitiveness)
    (hr : UMap.count p.creator_map r = true ∨
      UMap.count p.case_insensitive_creator_map (Poco.toLower r) = true)
    (hsh : UMap.count p.creator_map a = true ∨
      UMap.count p.case_insensitive_creator_map (Poco.toLower a) = true) :
    registerAlias p s a r m = (some RegErr.AliasShadowsCanonical, s) := by
  have hres : ∃ t, resolveRealName p r = some t := by
    unfold resolveRealName
    rcases hr with h | h
    · exact ⟨r, by simp [h]⟩
    · by_cases h0 : UMap.count p.creator_map r = true
      · exact ⟨r, by simp [h0]⟩
      · exact ⟨Poco.toLower r, by simp [h0, h]⟩
  obtain ⟨t, ht⟩ := hres
  have hb : (UMap.count p.creator_map a
      || UMap.count p.case_insensitive_creator_map (Poco.toLower a)) = true := by
    rcases hsh with h | h <;> simp [h]
  simp [registerAlias, ht, hb]

/-- Witness for C3: trying to register the canonical name "Sum" itself as
an alias fails with AliasShadowsCanonical. -/
theorem registerAlias_alias_shadows_canonical_witness :
    (UMap.count sumProvider.creator_map "Sum" = true ∨
      UMap.count sumProvider.case_insensitive_creator_map (Poco.toLower "Sum") = true) ∧
    registerAlias sumProvider emptyFS "Sum" "Sum" CaseSensitiveness.CaseInsensitive
      = (some RegErr.AliasShadowsCanonical, emptyFS) :=
  ⟨Or.inl (by decide),
   registerAlias_alias_shadows_canonical sumProvider emptyFS "Sum" "Sum"
     CaseSensitiveness.CaseInsensitive (Or.inl (by decide)) (Or.inl (by decide))⟩

/-- Claim C4: in CaseInsensitive mode, when the case-insensitive insertion
succeeds (its key `lowercase(alias_name)` is fresh) and the subsequent
case-sensitive insertion fails because `alias_name` is already a key of
`aliases`, the call returns DuplicateAlias with the new case-insensitive
entry committed and the case-sensitive map unchanged. -/
theorem registerAlias_partial_commit_on_duplicate {C : Type} (p : Provider C)
    (s : FactoryState) (a r t : String)
    (hres : resolveRealName p r = some t)
    (hsh1 : UMap.count p.creator_map a = false)
    (hsh2 : UMap.count p.case_insensitive_creator_map (Poco.toLower a) = false)
    (hci : UMap.count s.case_insensitive_aliases (Poco.toLower a) = false)
    (hcs : UMap.count s.aliases a = true) :
    registerAlias p s a r CaseSensitiveness.CaseInsensitive =
      (some RegErr.DuplicateAlias,
       { aliases := s.aliases,
         case_insensitive_aliases :=
           s.case_insensitive_aliases ++ [(Poco.toLower a, t)] }) := by
  simp [registerAlias, hres, hsh1, hsh2, registerAliasStep4, UMap.emplace, hci, hcs]

/-- Witness for C4: over the provider knowing "Sum", with "SUM" already a
case-sensitive alias, a case-insensitive re-registration of "SUM" fails at
step 4 yet leaves ("sum" → "Sum") committed in the case-insensitive map. -/
theorem registerAlias_partial_commit_on_duplicate_witness :
    resolveRealName sumProvider "Sum" = some "Sum" ∧
    UMap.count dupState.aliases "SUM" = true ∧
    registerAlias sumProvider dupState "SUM" "Sum" CaseSensitiveness.CaseInsensitive =
      (some RegErr.DuplicateAlias,
       { aliases := [("SUM", "Sum")],
         case_insensitive_aliases := [("sum", "Sum")] }) :=
  ⟨by decide, by decide,
   registerAlias_partial_commit_on_duplicate sumProvider dupState "SUM" "Sum" "Sum"
     (by decide) (by decide) (by decide) (by decide) (by decide)⟩

/-- Counterexample to claim C5: in the scenario with canonical map
{"Sum"} and a successful `registerAlias("SUM", "Sum", CaseInsensitive)`,
`aliasTo("Sum")` does NOT fail with NotAnAlias: the lowercased lookup key
"sum" is present in the case-insensitive alias map. -/
theorem aliasTo_canonical_not_an_alias_refuted :
    (registerAlias sumProvider emptyFS "SUM" "Sum" CaseSensitiveness.CaseInsensitive).1
      = none ∧
    aliasTo sumState "Sum" ≠ Except.error QueryErr.NotAnAlias := by
  decide

/-- Claim C5 as amended: in the same scenario, `aliasTo("Sum")` succeeds
and returns "Sum", because `aliasTo` lowercases its argument and finds the
key "sum" in the case-insensitive alias map. -/
theorem aliasTo_canonical_resolves_via_ci_map :
    (registerAlias sumProvider emptyFS "SUM" "Sum" CaseSensitiveness.CaseInsensitive).1
      = none ∧
    aliasTo sumState "Sum" = Except.ok "Sum" := by
  decide

/-- Claim C6: `isAlias(x)` is true exactly when the unmodified string `x`
is a key of the case-sensitive alias map or of the case-insensitive alias
map; no lowercasing is applied before the case-insensitive probe. -/
theorem isAlias_exact_lookup (s : FactoryState) (x : String) :
    isAlias s x = true ↔
      ((∃ v, (x, v) ∈ s.aliases) ∨ (∃ v, (x, v) ∈ s.case_insensitive_aliases)) := by
  simp only [isAlias, UMap.count, Bool.or_eq_true, List.any_eq_true, beq_iff_eq]
  constructor
  · rintro (⟨⟨k, v⟩, hm, hk⟩ | ⟨⟨k, v⟩, hm, hk⟩)
    · obtain rfl : k = x := hk
      exact Or.inl ⟨v, hm⟩
    · obtain rfl : k = x := hk
      exact Or.inr ⟨v, hm⟩
  · rintro (⟨v, hm⟩ | ⟨v, hm⟩)
    · exact Or.inl ⟨(x, v), hm, rfl⟩
    · exact Or.inr ⟨(x, v), hm, rfl⟩

/-- Claim C7: `getAllRegisteredNames` is the keys of the provider's
case-sensitive canonical map followed by the keys of the case-sensitive
alias map; it does not depend on the case-insensitive alias map at all;
and every successfully registered alias appears in the result. -/
theorem getAllRegisteredNames_enumeration {C : Type} (p : Provider C) (s : FactoryState) :
    getAllRegisteredNames p s
      = p.creator_map.map (fun kv => kv.1) ++ s.aliases.map (fun kv => kv.1) ∧
    (∀ ci2, getAllRegisteredNames p { s with case_insensitive_aliases := ci2 }
      = getAllRegisteredNames p s) ∧
    (∀ a r m s2, registerAlias p s a r m = (none, s2) →
      a ∈ getAllRegisteredNames p s2) := by
  refine ⟨rfl, fun ci2 => rfl, ?_⟩
  intro a r m s2 h
  obtain ⟨t, ht⟩ := registerAlias_success_aliases p s a r m s2 h
  simp [getAllRegisteredNames, ht]

/-- Witness for C7: the successfully registered alias "SUM" appears in
the enumeration of the resulting state. -/
theorem getAllRegisteredNames_enumeration_witness :
    registerAlias sumProvider emptyFS "SUM" "Sum" CaseSensitiveness.CaseInsensitive
      = (none, sumState) ∧
    "SUM" ∈ getAllRegisteredNames sumProvider sumState :=
  ⟨by decide,
   (getAllRegisteredNames_enumeration sumProvider emptyFS).2.2 "SUM" "Sum"
     CaseSensitiveness.CaseInsensitive sumState (by decide)⟩

/-- Claim C8: on its first invocation (empty cache) `getHints` computes
the registered-name list from the current state and caches it; a
`registerAlias` call afterwards leaves the cache untouched, so a later
`getHints` still ranks over the snapshot taken at the first call. -/
theorem getHints_caches_first_snapshot {C : Type}
    (pr : String → List String → List String) (p : Provider C)
    (rs : RegistryState) (q1 q2 a r : String) (m : CaseSensitiveness)
    (hfresh : rs.hints_cache = none) :
    (getHints pr p rs q1).1 = pr q1 (getAllRegisteredNames p rs.fs) ∧
    (getHints pr p rs q1).2.hints_cache = some (getAllRegisteredNames p rs.fs) ∧
    (registerAliasR p ((getHints pr p rs q1).2) a r m).2.hints_cache
      = some (getAllRegisteredNames p rs.fs) ∧
    (getHints pr p (registerAliasR p ((getHints pr p rs q1).2) a r m).2 q2).1
      = pr q2 (getAllRegisteredNames p rs.fs) := by
  simp [getHints, hfresh, registerAliasR]

/-- Witness for C8: over the fresh registry, hints after a subsequent
successful registration of "SUM" are still computed from the original
snapshot ["Sum"]. -/
theorem getHints_caches_first_snapshot_witness :
    (getHints idPrompter sumProvider { fs := emptyFS, hints_cache := none } "Suu").1
      = idPrompter "Suu" (getAllRegisteredNames sumProvider emptyFS) ∧
    (getHints idPrompter sumProvider
        (registerAliasR sumProvider
          ((getHints idPrompter sumProvider
            { fs := emptyFS, hints_cache := none } "Suu").2)
          "SUM" "Sum" CaseSensitiveness.CaseInsensitive).2 "SUM").1
      = idPrompter "SUM" (getAllRegisteredNames sumProvider emptyFS) := by
  have h := getHints_caches_first_snapshot idPrompter sumProvider
    { fs := emptyFS, hints_cache := none } "Suu" "SUM" "SUM" "Sum"
    CaseSensitiveness.CaseInsensitive rfl
  exact ⟨h.1, h.2.2.2⟩

/-- Claim C9: a `registerAlias` call in CaseSensitive mode, whether it
succeeds or fails, leaves the case-insensitive alias map exactly as it
was; the case-sensitive alias map either stays unchanged or gains exactly
the one new entry. -/
theorem registerAlias_case_sensitive_frame {C : Type} (p : Provider C)
    (s : FactoryState) (a r : String) :
    ((registerAlias p s a r CaseSensitiveness.CaseSensitive).2).case_insensitive_aliases
      = s.case_insensitive_aliases ∧
    (((registerAlias p s a r CaseSensitiveness.CaseSensitive).2).aliases = s.aliases ∨
      ∃ t, ((registerAlias p s a r CaseSensitiveness.CaseSensitive).2).aliases
        = s.aliases ++ [(a, t)]) := by
  unfold registerAlias
  cases hres : resolveRealName p r with
  | none => simp
  | some t =>
    simp only
    by_cases hsh : (UMap.count p.creator_map a
        || UMap.count p.case_insensitive_creator_map (Poco.toLower a)) = true
    · rw [if_pos hsh]; simp
    · rw [if_neg (by simpa using hsh)]
      simp only [registerAliasStep4, UMap.emplace]
      by_cases hc : UMap.count s.aliases a = true
      · simp [hc]
      · simp [hc]

/-- Claim C10: with the provider fixed, every value stored in either alias
map is a valid canonical target (a key of the case-sensitive canonical
map, or the lowercased form of a real name hitting the case-insensitive
canonical map); `registerAlias` preserves this invariant on success and on
every failure, and `getHints` — the only query threaded through state —
leaves the alias maps unchanged. -/
theorem registerAlias_preserves_alias_invariant {C : Type} (p : Provider C)
    (s : FactoryState) (a r nm : String) (m : CaseSensitiveness)
    (pr : String → List String → List String) (rs : RegistryState)
    (h : AliasInvariant p s) :
    AliasInvariant p (registerAlias p s a r m).2 ∧
    (getHints pr p rs nm).2.fs = rs.fs := by
  constructor
  · unfold registerAlias
    cases hres : resolveRealName p r with
    | none => exact h
    | some t =>
      have hvt := validTarget_of_resolve p r t hres
      simp only
      by_cases hsh : (UMap.count p.creator_map a
          || UMap.count p.case_insensitive_creator_map (Poco.toLower a)) = true
      · rw [if_pos hsh]; exact h
      · rw [if_neg (by simpa using hsh)]
        cases m with
        | CaseSensitive =>
          exact registerAliasStep4_inv p s a t h hvt
        | CaseInsensitive =>
          by_cases hci : UMap.count s.case_insensitive_aliases (Poco.toLower a) = true
          · have he : UMap.emplace s.case_insensitive_aliases (Poco.toLower a) t
                = (false, s.case_insensitive_aliases) := by
              simp [UMap.emplace, hci]
            simp only [he]
            exact h
          · have hci2 : UMap.count s.case_insensitive_aliases (Poco.toLower a) = false := by
              simpa using hci
            have he : UMap.emplace s.case_insensitive_aliases (Poco.toLower a) t
                = (true, s.case_insensitive_aliases ++ [(Poco.toLower a, t)]) := by
              simp [UMap.emplace, hci2]
            simp only [he]
            have h2 : AliasInvariant p
                { s with case_insensitive_aliases :=
                    s.case_insensitive_aliases ++ [(Poco.toLower a, t)] } := by
              refine ⟨h.1, ?_⟩
              intro kv hkv
              rcases List.mem_append.1 hkv with h1 | h2
              · exact h.2 kv h1
              · have hkv2 : kv = (Poco.toLower a, t) := by simpa using h2
                subst hkv2
                exact hvt
            simpa using registerAliasStep4_inv p _ a t h2 hvt
  · cases hic : rs.hints_cache <;> simp [getHints, hic]

/-- Witness for C10: the invariant holds on the empty registry and is
preserved through the scenario's case-insensitive registration; `getHints`
leaves the alias maps of the registry untouched. -/
theorem registerAlias_preserves_alias_invariant_witness :
    AliasInvariant sumProvider emptyFS ∧
    AliasInvariant sumProvider
      (registerAlias sumProvider emptyFS "SUM" "Sum" CaseSensitiveness.CaseInsensitive).2 ∧
    (getHints idPrompter sumProvider { fs := emptyFS, hints_cache := none } "q").2.fs
      = emptyFS := by
  have h0 : AliasInvariant sumProvider emptyFS := by
    constructor <;> intro kv hkv <;> simp [emptyFS] at hkv
  have h := registerAlias_preserves_alias_invariant sumProvider emptyFS "SUM" "Sum" "q"
    CaseSensitiveness.CaseInsensitive idPrompter { fs := emptyFS, hints_cache := none } h0
  exact ⟨h0, h.1, h.2⟩

end DB
